import Mathlib

/-!
Verification of the risk-configuration form editor.

The repository has two variants of the same React component:
`src/pages/RiskConfiguration.tsx` (local-storage variant) and the
`RiskConfiguration` component bundled in `src/components/AppSidebar.tsx`
(API variant, which adds `fetchConfigurations`, `saveConfigurations`,
`configId`/`riskFieldId` fields and a validating `saveRules`).  The
state-changing operations `addCondition`, `removeCondition`,
`updateCondition` and the helper `getAvailableFields` are textually
identical in both variants.

This file embeds the component state and those operations shallowly:
React `useState` state becomes explicit arguments and results, network
calls become explicit outcome parameters (`Option`), and JS numbers used
as weights become `Int` (for integer weights `Number(w) || 0 = w`, since
`0 || 0 = 0`).  The `configId`/`riskFieldId` fields exist only in the API
variant's `RiskCondition`; they are modelled as `Option Nat` defaulting to
`none`, which also matches JS property absence.
-/

/-- A single scoring rule row, from the `RiskCondition` interface. -/
structure RiskCondition where
  id : String
  field : String
  operator : String
  value : String
  weight : Int
  dataType : String
  configId : Option Nat := none
  riskFieldId : Option Nat := none
deriving DecidableEq

/-- The category `status` field: `"incomplete" | "complete"`. -/
inductive CatStatus where
  | incomplete
  | complete
deriving DecidableEq

/-- A named group of conditions, from the `RiskCategory` interface. -/
structure RiskCategory where
  id : String
  name : String
  conditions : List RiskCondition
  totalWeight : Int
  status : CatStatus
deriving DecidableEq

/-- One entry of the `fieldOptions` table in the API variant. -/
structure FieldOption where
  name : String
  dataType : String
  riskFieldId : Nat
deriving DecidableEq

/-- One item of the GET response, from the `ApiConfigItem` interface. -/
structure ApiConfigItem where
  ConfigId : Nat
  RiskFieldId : Nat
  Operator : String
  Value : String
  WeightPercentage : Int
  CreatedAt : String
  IsEnabled : Bool
  FieldName : String
  DisplayName : String
deriving DecidableEq

/-- One item of the POST body built by `saveConfigurations`. -/
structure ApiSaveItem where
  RiskFieldId : Nat
  Operator : String
  Value : String
  WeightPercentage : Int
deriving DecidableEq

/-- A toast notification as produced by `useToast`. -/
structure Toast where
  title : String
  description : String
  destructive : Bool
deriving DecidableEq

/-- Source: `conditions.reduce((sum, c) => sum + c.weight, 0)`. -/
def sumWeights (cs : List RiskCondition) : Int :=
  (cs.map (fun c => c.weight)).sum

/-- Table `fieldOptions.financial` in `AppSidebar.tsx`. -/
def financialFields : List FieldOption :=
  [ { name := "Loan Amount", dataType := "Number", riskFieldId := 1 },
    { name := "Outstanding Balance", dataType := "Number", riskFieldId := 2 },
    { name := "Days Past Due (DPD)", dataType := "Number", riskFieldId := 3 },
    { name := "Repayment History Score", dataType := "Number", riskFieldId := 4 },
    { name := "Credit Score (Experian/Equifax)", dataType := "Number", riskFieldId := 5 },
    { name := "Credit Utilisation Ratio", dataType := "Percentage", riskFieldId := 6 },
    { name := "Previous Defaults (count)", dataType := "Number", riskFieldId := 7 },
    { name := "Cost-to-Collect Estimate", dataType := "Number", riskFieldId := 8 } ]

/-- Table `fieldOptions.identity` in `AppSidebar.tsx`. -/
def identityFields : List FieldOption :=
  [ { name := "Name Match %", dataType := "Percentage", riskFieldId := 9 },
    { name := "Address Match %", dataType := "Percentage", riskFieldId := 10 },
    { name := "DOB Match", dataType := "Boolean", riskFieldId := 11 },
    { name := "National Insurance Number Match", dataType := "Boolean", riskFieldId := 12 },
    { name := "Identity Match Score (Weighted)", dataType := "Number", riskFieldId := 13 } ]

/-- Table `fieldOptions.property` in `AppSidebar.tsx`. -/
def propertyFields : List FieldOption :=
  [ { name := "Years at Current Address", dataType := "Number", riskFieldId := 14 },
    { name := "Property Owned (Yes/No)", dataType := "Boolean", riskFieldId := 15 },
    { name := "Property Value", dataType := "Number", riskFieldId := 16 },
    { name := "Home Ownership Status", dataType := "Text", riskFieldId := 17 },
    { name := "Vehicle Owned (Yes/No)", dataType := "Boolean", riskFieldId := 18 },
    { name := "Stability Score", dataType := "Number", riskFieldId := 19 } ]

/-- Table `fieldOptions.contactability` in `AppSidebar.tsx`. -/
def contactabilityFields : List FieldOption :=
  [ { name := "Contact Numbers Available (count)", dataType := "Number", riskFieldId := 20 },
    { name := "Validated Phone Number (Yes/No)", dataType := "Boolean", riskFieldId := 21 },
    { name := "Mobile Number Verified", dataType := "Boolean", riskFieldId := 22 },
    { name := "Number of Contactable Channels", dataType := "Number", riskFieldId := 23 },
    { name := "Agent Recovery Success Rate", dataType := "Percentage", riskFieldId := 24 } ]

/-- Table `fieldOptions.risk` in `AppSidebar.tsx`. -/
def riskFields : List FieldOption :=
  [ { name := "Criminal Record Flag (Yes/No)", dataType := "Boolean", riskFieldId := 25 },
    { name := "History of Defaults/CCJs", dataType := "Boolean", riskFieldId := 26 },
    { name := "Recent Missed Payments", dataType := "Number", riskFieldId := 27 },
    { name := "Same Name Cases Flag", dataType := "Boolean", riskFieldId := 28 },
    { name := "Loan Application Address Risk", dataType := "Text", riskFieldId := 29 } ]

/-- Lookup `fieldOptions[categoryId as keyof typeof fieldOptions]`, `undefined`
    rendered as the empty list (the call sites append `|| []`). -/
def fieldOptions (categoryId : String) : List FieldOption :=
  if categoryId == "financial" then financialFields
  else if categoryId == "identity" then identityFields
  else if categoryId == "property" then propertyFields
  else if categoryId == "contactability" then contactabilityFields
  else if categoryId == "risk" then riskFields
  else []

/-- Source: `Object.values(fieldOptions).flat()`, the five option lists in
    declaration order. -/
def allFieldOptions : List FieldOption :=
  financialFields ++ identityFields ++ propertyFields ++ contactabilityFields ++ riskFields

/-- The fresh row built by `addCondition` (its `id` is `Date.now().toString()`,
    passed in here as the nondeterministic `newId`). -/
def newConditionRecord (newId : String) : RiskCondition :=
  { id := newId, field := "", operator := ">", value := "", weight := 0,
    dataType := "Number" }

/-- The per-category update performed inside `addCondition`'s `setCategories`:
    the matching tab gets the new row appended, every other category is
    returned as is.  Only `conditions` is replaced by the object spread. -/
def addCondInCat (activeTab newId : String) (cat : RiskCategory) : RiskCategory :=
  if cat.id == activeTab then
    { cat with conditions := cat.conditions ++ [newConditionRecord newId] }
  else cat

/-- Operation `addCondition`: guarded by `if (!activeCategory) return;` where
    `activeCategory = categories.find(cat => cat.id === activeTab)`. -/
def addCondition (activeTab newId : String) (categories : List RiskCategory) :
    List RiskCategory :=
  if (categories.find? (fun cat => cat.id == activeTab)).isSome then
    categories.map (addCondInCat activeTab newId)
  else categories

/-- The per-category update performed inside `removeCondition`: the matching
    tab filters out the row and recomputes `totalWeight` and `status` from the
    filtered list; every other category is returned as is. -/
def removeCondInCat (activeTab conditionId : String) (cat : RiskCategory) :
    RiskCategory :=
  if cat.id == activeTab then
    let remaining := cat.conditions.filter (fun c => c.id != conditionId)
    { cat with
      conditions := remaining,
      totalWeight := sumWeights remaining,
      status := if sumWeights remaining = 100 then CatStatus.complete
                else CatStatus.incomplete }
  else cat

/-- Operation `removeCondition` (no guard in the source). -/
def removeCondition (activeTab conditionId : String)
    (categories : List RiskCategory) : List RiskCategory :=
  categories.map (removeCondInCat activeTab conditionId)

/-- The `field : keyof RiskCondition` / `value : any` pair passed to
    `updateCondition`; the UI only ever invokes it with these keys, each at
    the value type the corresponding event handler supplies. -/
inductive CondField where
  | fieldName (v : String)
  | operator (v : String)
  | value (v : String)
  | weight (v : Int)
  | dataType (v : String)
  | riskFieldId (v : Nat)
deriving DecidableEq

/-- The object spread `{ ...c, [field]: value }` for a non-weight key. -/
def setCondField (c : RiskCondition) (f : CondField) : RiskCondition :=
  match f with
  | CondField.fieldName v => { c with field := v }
  | CondField.operator v => { c with operator := v }
  | CondField.value v => { c with value := v }
  | CondField.weight v => { c with weight := v }
  | CondField.dataType v => { c with dataType := v }
  | CondField.riskFieldId v => { c with riskFieldId := some v }

/-- The per-category update performed inside `updateCondition`: non-matching
    tabs are returned early; on the matching tab the targeted row is updated
    (the `"weight"` key is capped at `100 - otherWeights`), then `totalWeight`
    and `status` are recomputed from the new rows.  For integer weights the
    source's `Number(c.weight) || 0` equals `c.weight`. -/
def updateCondInCat (activeTab conditionId : String) (f : CondField)
    (cat : RiskCategory) : RiskCategory :=
  if cat.id != activeTab then cat
  else
    let newConditions := cat.conditions.map (fun (c : RiskCondition) =>
      if c.id == conditionId then
        match f with
        | CondField.weight v =>
          let otherWeights :=
            sumWeights (cat.conditions.filter (fun cond => cond.id != conditionId))
          { c with weight := min v (100 - otherWeights) }
        | _ => setCondField c f
      else c)
    let totalWeight := sumWeights newConditions
    { cat with
      conditions := newConditions,
      totalWeight := totalWeight,
      status := if totalWeight = 100 then CatStatus.complete
                else CatStatus.incomplete }

/-- Operation `updateCondition`. -/
def updateCondition (activeTab conditionId : String) (f : CondField)
    (categories : List RiskCategory) : List RiskCategory :=
  categories.map (updateCondInCat activeTab conditionId f)

/-- Helper `getAvailableFields`, textually identical in both variants; the enclosing
    component's `fieldOptions` table is abstracted as `opts` (the API variant
    instantiates it with `fieldOptions` above). -/
def getAvailableFieldsWith (opts : String → List FieldOption)
    (categories : List RiskCategory) (categoryId : String)
    (currentField : Option String) : List FieldOption :=
  let category := categories.find? (fun cat => cat.id == categoryId)
  let usedFields : List String := match category with
    | some cat => cat.conditions.map (fun c => c.field)
    | none => []
  (opts categoryId).filter (fun f =>
    (!(usedFields.contains f.name)) || (currentField == some f.name))

/-- Helper `getAvailableFields` of the API variant. -/
def getAvailableFields (categories : List RiskCategory) (categoryId : String)
    (currentField : Option String) : List FieldOption :=
  getAvailableFieldsWith fieldOptions categories categoryId currentField

/-- The toast of `fetchConfigurations`' catch block. -/
def loadErrorToast : Toast :=
  { title := "Error", description := "Failed to load configurations",
    destructive := true }

/-- The toast of `saveConfigurations`' catch block. -/
def saveErrorToast : Toast :=
  { title := "Error", description := "Failed to save configurations",
    destructive := true }

/-- The toast of `saveConfigurations`' success branch. -/
def saveSuccessToast : Toast :=
  { title := "Success", description := "Risk configurations updated successfully.",
    destructive := false }

/-- The toast of the API variant's `saveRules` validation failure. -/
def invalidConfigToast : Toast :=
  { title := "Invalid Configuration",
    description := "All categories with conditions must have weights totaling 100%",
    destructive := true }

/-- The toast of the local variant's `saveRules`. -/
def rulesSavedToast : Toast :=
  { title := "Rules Saved",
    description := "Scoring Configuration has been saved successfully. Dashboard will reflect these changes.",
    destructive := false }

/-- The filter predicate of `fetchConfigurations`: look the item's
    `DisplayName` up in `Object.values(fieldOptions).flat()` and keep the item
    when the found option object is `.includes`-contained in this category's
    option list.  JS `includes` is reference equality; since all 29 option
    objects differ field-wise (distinct `riskFieldId`s), structural equality
    is a faithful model of it. -/
def keepForCategory (catId : String) (item : ApiConfigItem) : Bool :=
  match allFieldOptions.find? (fun f => f.name == item.DisplayName) with
  | some fieldInfo => (fieldOptions catId).contains fieldInfo
  | none => false

/-- The item-to-row map of `fetchConfigurations`. -/
def transformItem (item : ApiConfigItem) : RiskCondition :=
  { id := toString item.ConfigId,
    field := item.DisplayName,
    operator := item.Operator,
    value := item.Value,
    weight := item.WeightPercentage,
    dataType :=
      match allFieldOptions.find? (fun f => f.name == item.DisplayName) with
      | some f => f.dataType
      | none => "Number",
    configId := some item.ConfigId,
    riskFieldId := some item.RiskFieldId }

/-- The `transformedCategories` computation of `fetchConfigurations`. -/
def fetchTransform (data : List ApiConfigItem) (categories : List RiskCategory) :
    List RiskCategory :=
  categories.map (fun category =>
    let categoryConditions := (data.filter (keepForCategory category.id)).map transformItem
    let totalWeight := sumWeights categoryConditions
    { category with
      conditions := categoryConditions,
      totalWeight := totalWeight,
      status := if totalWeight = 100 then CatStatus.complete
                else CatStatus.incomplete })

/-- Result of a `fetchConfigurations` call: the categories state after the
    call, the toasts shown, and how many GET requests were issued. -/
structure FetchResult where
  categories : List RiskCategory
  toasts : List Toast
  requests : Nat
deriving DecidableEq

/-- Operation `fetchConfigurations`; `response = none` models the fetch or the JSON
    parse throwing, `some data` a parsed response.  The body issues exactly
    one GET and never retries. -/
def fetchConfigurations (categories : List RiskCategory)
    (response : Option (List ApiConfigItem)) : FetchResult :=
  match response with
  | some data =>
    { categories := fetchTransform data categories, toasts := [], requests := 1 }
  | none =>
    { categories := categories, toasts := [loadErrorToast], requests := 1 }

/-- Source: `condition.riskFieldId || Object.values(fieldOptions).flat().find(f =>
    f.name === condition.field)?.riskFieldId || 1` — JS `||` falls through on
    `undefined` (here `none`) and on `0`. -/
def condRiskFieldId (c : RiskCondition) : Nat :=
  let fallback : Nat :=
    match allFieldOptions.find? (fun f => f.name == c.field) with
    | some f => if f.riskFieldId = 0 then 1 else f.riskFieldId
    | none => 1
  match c.riskFieldId with
  | some r => if r = 0 then fallback else r
  | none => fallback

/-- The `allConditions` POST body of `saveConfigurations`: every condition of
    every category, flattened in category order then condition order. -/
def saveBody (categories : List RiskCategory) : List ApiSaveItem :=
  categories.flatMap (fun category =>
    category.conditions.map (fun condition =>
      { RiskFieldId := condRiskFieldId condition,
        Operator := condition.operator,
        Value := condition.value,
        WeightPercentage := condition.weight }))

/-- Result of a save attempt: the categories state after the call, the toasts
    shown, and the body of the POST request when one was issued (`none` means
    no request was sent). -/
structure SaveResult where
  categories : List RiskCategory
  toasts : List Toast
  posted : Option (List ApiSaveItem)
deriving DecidableEq

/-- Operation `saveConfigurations`; `postOutcome` is `some true` for an `ok` response,
    `some false` for a non-ok response (the code then throws into its own
    catch), `none` for the fetch itself throwing.  The body issues exactly
    one POST, never retries, and never calls `setCategories`. -/
def saveConfigurations (categories : List RiskCategory)
    (postOutcome : Option Bool) : SaveResult :=
  match postOutcome with
  | some true =>
    { categories := categories, toasts := [saveSuccessToast],
      posted := some (saveBody categories) }
  | some false =>
    { categories := categories, toasts := [saveErrorToast],
      posted := some (saveBody categories) }
  | none =>
    { categories := categories, toasts := [saveErrorToast],
      posted := some (saveBody categories) }

/-- The API variant's `saveRules`: validate that every category that has
    conditions totals 100, else toast and return without saving. -/
def saveRules (categories : List RiskCategory) (postOutcome : Option Bool) :
    SaveResult :=
  if ((categories.filter (fun cat => cat.conditions.length > 0)).filter
      (fun cat => cat.totalWeight ≠ 100)).length > 0 then
    { categories := categories, toasts := [invalidConfigToast], posted := none }
  else saveConfigurations categories postOutcome

/-- Lower-case hex digit, as emitted by `JSON.stringify` unicode escapes. -/
def hexDigit (n : Nat) : Char :=
  if n < 10 then Char.ofNat (48 + n) else Char.ofNat (87 + n)

/-- Four-digit hex rendering of a code point below 0x10000. -/
def hex4 (n : Nat) : String :=
  String.mk [hexDigit (n / 4096 % 16), hexDigit (n / 256 % 16),
             hexDigit (n / 16 % 16), hexDigit (n % 16)]

/-- The `JSON.stringify` escaping of one character inside a string literal. -/
def escChar (c : Char) : String :=
  if c = Char.ofNat 34 then "\\\""
  else if c = Char.ofNat 92 then "\\\\"
  else if c = Char.ofNat 10 then "\\n"
  else if c = Char.ofNat 13 then "\\r"
  else if c = Char.ofNat 9 then "\\t"
  else if c = Char.ofNat 8 then "\\b"
  else if c = Char.ofNat 12 then "\\f"
  else if c.toNat < 32 then "\\u" ++ hex4 c.toNat
  else String.singleton c

/-- The `JSON.stringify` rendering of a string value. -/
def jstr (s : String) : String :=
  "\"" ++ String.join (s.toList.map escChar) ++ "\""

/-- Comma-joined JSON array. -/
def jarr (elems : List String) : String :=
  let sep : String := ","
  "[" ++ String.intercalate sep elems ++ "]"

/-- The JSON text of the `status` field. -/
def statusString (s : CatStatus) : String :=
  match s with
  | CatStatus.incomplete => "incomplete"
  | CatStatus.complete => "complete"

/-- The `JSON.stringify` text of one condition object: keys in insertion order
    (`id`, `field`, `operator`, `value`, `weight`, `dataType`, then the
    optional API-variant keys, absent properties omitted). -/
def jsonCondition (c : RiskCondition) : String :=
  "\x7b\"id\":" ++ jstr c.id
    ++ ",\"field\":" ++ jstr c.field
    ++ ",\"operator\":" ++ jstr c.operator
    ++ ",\"value\":" ++ jstr c.value
    ++ ",\"weight\":" ++ toString c.weight
    ++ ",\"dataType\":" ++ jstr c.dataType
    ++ (match c.configId with
        | some n => ",\"configId\":" ++ toString n
        | none => "")
    ++ (match c.riskFieldId with
        | some n => ",\"riskFieldId\":" ++ toString n
        | none => "")
    ++ "\x7d"

/-- The `JSON.stringify` text of one category object: keys in insertion order
    (`id`, `name`, `conditions`, `totalWeight`, `status`). -/
def jsonCategory (cat : RiskCategory) : String :=
  "\x7b\"id\":" ++ jstr cat.id
    ++ ",\"name\":" ++ jstr cat.name
    ++ ",\"conditions\":" ++ jarr (cat.conditions.map jsonCondition)
    ++ ",\"totalWeight\":" ++ toString cat.totalWeight
    ++ ",\"status\":" ++ jstr (statusString cat.status)
    ++ "\x7d"

/-- Source: `JSON.stringify(categories)`. -/
def stringifyCategories (categories : List RiskCategory) : String :=
  jarr (categories.map jsonCategory)

/-- Result of the local variant's `saveRules`: the localStorage write, the
    toast, and the (untouched) categories state. -/
structure LocalSaveResult where
  storedKey : String
  storedValue : String
  toast : Toast
  categories : List RiskCategory
deriving DecidableEq

/-- The local-storage variant's `saveRules` in `RiskConfiguration.tsx`:
    `localStorage.setItem("riskCategories", JSON.stringify(categories))`
    followed by a success toast; no validation, no `setCategories`. -/
def saveRulesLocal (categories : List RiskCategory) : LocalSaveResult :=
  { storedKey := "riskCategories",
    storedValue := stringifyCategories categories,
    toast := rulesSavedToast,
    categories := categories }

/-- One UI edit step: each carries the tab that was active when it fired. -/
inductive EditOp where
  | add (activeTab newId : String)
  | remove (activeTab conditionId : String)
  | update (activeTab conditionId : String) (f : CondField)
deriving DecidableEq

/-- Apply one edit step to the categories state. -/
def applyOp (op : EditOp) (categories : List RiskCategory) : List RiskCategory :=
  match op with
  | EditOp.add activeTab newId => addCondition activeTab newId categories
  | EditOp.remove activeTab conditionId =>
    removeCondition activeTab conditionId categories
  | EditOp.update activeTab conditionId f =>
    updateCondition activeTab conditionId f categories

/-- Apply a sequence of edit steps, oldest first. -/
def applyOps (ops : List EditOp) (categories : List RiskCategory) :
    List RiskCategory :=
  ops.foldl (fun acc op => applyOp op acc) categories

/-- The completeness-status invariant of the spec: `status` is `"complete"`
    exactly when the stored `totalWeight` is 100, else `"incomplete"`. -/
def statusOk (cat : RiskCategory) : Prop :=
  cat.status = if cat.totalWeight = 100 then CatStatus.complete
               else CatStatus.incomplete

instance (cat : RiskCategory) : Decidable (statusOk cat) := by
  unfold statusOk
  infer_instance

/-- The weight-sum invariant of the spec: the stored `totalWeight` is the sum
    of the conditions' `weight` fields. -/
def sumOk (cat : RiskCategory) : Prop :=
  cat.totalWeight = sumWeights cat.conditions

instance (cat : RiskCategory) : Decidable (sumOk cat) := by
  unfold sumOk
  infer_instance

/-- Spec-side filter for C6: keep a response item exactly when its
    `DisplayName` matches a field name in the category's `fieldOptions`. -/
def specKeep (catId : String) (item : ApiConfigItem) : Bool :=
  (fieldOptions catId).any (fun f => f.name == item.DisplayName)

/-- Spec-side transform for C6: `id` is `ConfigId` rendered as a string,
    `field` is `DisplayName`, `weight` is `WeightPercentage`, and `dataType`
    is looked up in the category's `fieldOptions` (defaulting to
    `"Number"`). -/
def specTransformItem (catId : String) (item : ApiConfigItem) : RiskCondition :=
  { id := toString item.ConfigId,
    field := item.DisplayName,
    operator := item.Operator,
    value := item.Value,
    weight := item.WeightPercentage,
    dataType :=
      match (fieldOptions catId).find? (fun f => f.name == item.DisplayName) with
      | some f => f.dataType
      | none => "Number",
    configId := some item.ConfigId,
    riskFieldId := some item.RiskFieldId }

/-- An item with its `IsEnabled` flag blanked; C6 states the fetch result is
    a function of the blanked data only. -/
def eraseEnabled (item : ApiConfigItem) : ApiConfigItem :=
  { item with IsEnabled := false }

/-- The riskFieldId fallback chain exactly as claim C5 words it: taken from
    the condition's `riskFieldId`, else looked up by field name, else 1. -/
def specRiskFieldId (c : RiskCondition) : Nat :=
  match c.riskFieldId with
  | some r => r
  | none =>
    match allFieldOptions.find? (fun f => f.name == c.field) with
    | some f => f.riskFieldId
    | none => 1

/-- The POST body as claim C5 states it. -/
def specSaveBody (categories : List RiskCategory) : List ApiSaveItem :=
  categories.flatMap (fun category =>
    category.conditions.map (fun condition =>
      { RiskFieldId := specRiskFieldId condition,
        Operator := condition.operator,
        Value := condition.value,
        WeightPercentage := condition.weight }))

/-- The riskFieldId fallback chain as amended: taken from the condition's
    `riskFieldId` when present and nonzero, else looked up by field name,
    else 1. -/
def specRiskFieldIdAmended (c : RiskCondition) : Nat :=
  let looked : Nat :=
    match allFieldOptions.find? (fun f => f.name == c.field) with
    | some f => f.riskFieldId
    | none => 1
  match c.riskFieldId with
  | some r => if r = 0 then looked else r
  | none => looked

/-- The POST body as the amended claim C5 states it. -/
def specSaveBodyAmended (categories : List RiskCategory) : List ApiSaveItem :=
  categories.flatMap (fun category =>
    category.conditions.map (fun condition =>
      { RiskFieldId := specRiskFieldIdAmended condition,
        Operator := condition.operator,
        Value := condition.value,
        WeightPercentage := condition.weight }))

/-- The 29 field names of the options table are pairwise distinct. -/
lemma allFieldOptions_names_nodup :
    (allFieldOptions.map (fun f => f.name)).Nodup := by decide

/-- No option of the table carries `riskFieldId = 0`. -/
lemma allFieldOptions_no_zero : ∀ f ∈ allFieldOptions, f.riskFieldId ≠ 0 := by
  decide

/-- Every per-category option list is contained in the flattened table. -/
lemma fieldOptions_subset_all (catId : String) :
    ∀ f ∈ fieldOptions catId, f ∈ allFieldOptions := by
  intro f hf
  unfold fieldOptions at hf
  unfold allFieldOptions
  repeat' split at hf
  all_goals simp_all [List.mem_append]

/-- The source's object-identity filter agrees with the spec's name-membership
    filter, because field names are globally unique in the options table. -/
lemma keepForCategory_eq_specKeep (catId : String) (item : ApiConfigItem) :
    keepForCategory catId item = specKeep catId item := by
  unfold keepForCategory specKeep
  cases hfind : allFieldOptions.find? (fun f => f.name == item.DisplayName) with
  | none =>
    rw [List.find?_eq_none] at hfind
    symm
    rw [List.any_eq_false]
    intro f hf
    exact hfind f (fieldOptions_subset_all catId f hf)
  | some fi =>
    have hp : fi.name = item.DisplayName := by
      have hb := List.find?_some hfind
      simpa using hb
    have hmem : fi ∈ allFieldOptions := List.mem_of_find?_eq_some hfind
    have hiff : ((fieldOptions catId).contains fi = true) ↔
        ((fieldOptions catId).any (fun f => f.name == item.DisplayName) = true) := by
      constructor
      · intro h
        have hfi : fi ∈ fieldOptions catId := by simpa using h
        rw [List.any_eq_true]
        exact ⟨fi, hfi, by simp [hp]⟩
      · intro h
        rw [List.any_eq_true] at h
        obtain ⟨f, hf, hname⟩ := h
        have hfname : f.name = item.DisplayName := by simpa using hname
        have hfe : fi = f :=
          List.inj_on_of_nodup_map allFieldOptions_names_nodup hmem
            (fieldOptions_subset_all catId f hf) (by rw [hp, hfname])
        rw [hfe]
        simpa using hf
    cases hc : (fieldOptions catId).contains fi <;>
      cases ha : (fieldOptions catId).any (fun f => f.name == item.DisplayName) <;>
      simp_all

/-- On items the category keeps, the source's global `dataType` lookup agrees
    with the spec's per-category lookup. -/
lemma transformItem_eq_spec (catId : String) (item : ApiConfigItem)
    (h : specKeep catId item = true) :
    transformItem item = specTransformItem catId item := by
  obtain ⟨g, hg, hgname⟩ := List.any_eq_true.mp h
  have hgname' : g.name = item.DisplayName := by simpa using hgname
  have hdt : (match allFieldOptions.find? (fun f => f.name == item.DisplayName) with
        | some f => f.dataType
        | none => "Number")
      = (match (fieldOptions catId).find? (fun f => f.name == item.DisplayName) with
        | some f => f.dataType
        | none => "Number") := by
    cases hfind : allFieldOptions.find? (fun f => f.name == item.DisplayName) with
    | none =>
      rw [List.find?_eq_none] at hfind
      exact absurd (by simp [hgname']) (hfind g (fieldOptions_subset_all catId g hg))
    | some fi =>
      have hpi : fi.name = item.DisplayName := by
        have hb := List.find?_some hfind
        simpa using hb
      have hmi : fi ∈ allFieldOptions := List.mem_of_find?_eq_some hfind
      cases hfind2 : (fieldOptions catId).find? (fun f => f.name == item.DisplayName) with
      | none =>
        rw [List.find?_eq_none] at hfind2
        exact absurd (by simp [hgname']) (hfind2 g hg)
      | some f2 =>
        have hp2 : f2.name = item.DisplayName := by
          have hb := List.find?_some hfind2
          simpa using hb
        have hm2 : f2 ∈ fieldOptions catId := List.mem_of_find?_eq_some hfind2
        have hfe : fi = f2 :=
          List.inj_on_of_nodup_map allFieldOptions_names_nodup hmi
            (fieldOptions_subset_all catId f2 hm2) (by rw [hpi, hp2])
        rw [hfe]
  unfold transformItem specTransformItem
  rw [hdt]

/-- The fetched replacement condition lists, category by category, are exactly
    the spec-side filter-and-map of the response. -/
lemma fetchTransform_conditions (data : List ApiConfigItem)
    (cats : List RiskCategory) :
    (fetchTransform data cats).map (fun cat => cat.conditions)
      = cats.map (fun cat =>
          (data.filter (specKeep cat.id)).map (specTransformItem cat.id)) := by
  unfold fetchTransform
  rw [List.map_map]
  apply List.map_congr_left
  intro cat _
  show ((data.filter (keepForCategory cat.id)).map transformItem) = _
  have hfilter : data.filter (keepForCategory cat.id)
      = data.filter (specKeep cat.id) :=
    List.filter_congr (fun x _ => keepForCategory_eq_specKeep cat.id x)
  rw [hfilter]
  apply List.map_congr_left
  intro x hx
  exact transformItem_eq_spec cat.id x (List.mem_filter.mp hx).2

/-- Blanking every item's `IsEnabled` flag does not change the fetch
    transform: the flag has no effect on the result. -/
lemma fetchTransform_eraseEnabled (data : List ApiConfigItem)
    (cats : List RiskCategory) :
    fetchTransform (data.map eraseEnabled) cats = fetchTransform data cats := by
  unfold fetchTransform
  apply List.map_congr_left
  intro cat _
  have hkey : ((data.map eraseEnabled).filter (keepForCategory cat.id)).map transformItem
      = (data.filter (keepForCategory cat.id)).map transformItem := by
    induction data with
    | nil => rfl
    | cons a as ih =>
      have h1 : keepForCategory cat.id (eraseEnabled a) = keepForCategory cat.id a := rfl
      have h2 : transformItem (eraseEnabled a) = transformItem a := rfl
      simp only [List.map_cons, List.filter_cons, h1]
      cases keepForCategory cat.id a with
      | true => simp only [if_true, List.map_cons, h2, ih]
      | false => simpa using ih
  simp only [hkey]

/-- Push a pointwise-preserved property through a `map` over the state. -/
lemma forall_mem_map {P : RiskCategory → Prop} (g : RiskCategory → RiskCategory)
    (cats : List RiskCategory) (h : ∀ cat ∈ cats, P cat)
    (hg : ∀ cat, P cat → P (g cat)) : ∀ cat ∈ cats.map g, P cat := by
  intro cat hcat
  rw [List.mem_map] at hcat
  obtain ⟨c, hc, rfl⟩ := hcat
  exact hg c (h c hc)

lemma statusOk_addCondInCat (tab nid : String) (cat : RiskCategory)
    (h : statusOk cat) : statusOk (addCondInCat tab nid cat) := by
  unfold addCondInCat
  split
  · simpa [statusOk] using h
  · exact h

lemma statusOk_removeCondInCat (tab cid : String) (cat : RiskCategory)
    (h : statusOk cat) : statusOk (removeCondInCat tab cid cat) := by
  unfold removeCondInCat
  split
  · simp [statusOk]
  · exact h

lemma statusOk_updateCondInCat (tab cid : String) (f : CondField)
    (cat : RiskCategory) (h : statusOk cat) :
    statusOk (updateCondInCat tab cid f cat) := by
  unfold updateCondInCat
  split
  · exact h
  · simp [statusOk]

/-- Every category produced by the fetch transform satisfies the status
    invariant, with no assumption on the previous state. -/
lemma statusOk_fetchTransform (data : List ApiConfigItem)
    (cats : List RiskCategory) : ∀ cat ∈ fetchTransform data cats, statusOk cat := by
  intro cat hcat
  unfold fetchTransform at hcat
  rw [List.mem_map] at hcat
  obtain ⟨c, _, rfl⟩ := hcat
  simp [statusOk]

lemma sumOk_addCondInCat (tab nid : String) (cat : RiskCategory)
    (h : sumOk cat) : sumOk (addCondInCat tab nid cat) := by
  unfold addCondInCat
  split
  · simp only [sumOk, sumWeights, List.map_append, List.sum_append] at h ⊢
    simpa [newConditionRecord] using h
  · exact h

lemma sumOk_removeCondInCat (tab cid : String) (cat : RiskCategory)
    (h : sumOk cat) : sumOk (removeCondInCat tab cid cat) := by
  unfold removeCondInCat
  split
  · simp [sumOk]
  · exact h

lemma sumOk_updateCondInCat (tab cid : String) (f : CondField)
    (cat : RiskCategory) (h : sumOk cat) :
    sumOk (updateCondInCat tab cid f cat) := by
  unfold updateCondInCat
  split
  · exact h
  · simp [sumOk]

lemma statusOk_addCondition (tab nid : String) (cats : List RiskCategory)
    (h : ∀ cat ∈ cats, statusOk cat) :
    ∀ cat ∈ addCondition tab nid cats, statusOk cat := by
  unfold addCondition
  split
  · exact forall_mem_map _ cats h (statusOk_addCondInCat tab nid)
  · exact h

lemma statusOk_removeCondition (tab cid : String) (cats : List RiskCategory)
    (h : ∀ cat ∈ cats, statusOk cat) :
    ∀ cat ∈ removeCondition tab cid cats, statusOk cat :=
  forall_mem_map _ cats h (statusOk_removeCondInCat tab cid)

lemma statusOk_updateCondition (tab cid : String) (f : CondField)
    (cats : List RiskCategory) (h : ∀ cat ∈ cats, statusOk cat) :
    ∀ cat ∈ updateCondition tab cid f cats, statusOk cat :=
  forall_mem_map _ cats h (statusOk_updateCondInCat tab cid f)

lemma sumOk_applyOp (op : EditOp) (cats : List RiskCategory)
    (h : ∀ cat ∈ cats, sumOk cat) : ∀ cat ∈ applyOp op cats, sumOk cat := by
  cases op with
  | add tab nid =>
    show ∀ cat ∈ addCondition tab nid cats, sumOk cat
    unfold addCondition
    split
    · exact forall_mem_map _ cats h (sumOk_addCondInCat tab nid)
    · exact h
  | remove tab cid =>
    exact forall_mem_map _ cats h (sumOk_removeCondInCat tab cid)
  | update tab cid f =>
    exact forall_mem_map _ cats h (sumOk_updateCondInCat tab cid f)

lemma sumOk_applyOps (ops : List EditOp) (cats : List RiskCategory)
    (h : ∀ cat ∈ cats, sumOk cat) : ∀ cat ∈ applyOps ops cats, sumOk cat := by
  induction ops generalizing cats with
  | nil => exact h
  | cons op ops ih => exact ih (applyOp op cats) (sumOk_applyOp op cats h)

/-- Decomposition of a weight update on the active category: splitting the
    row list around the (unique) targeted row, the other rows pass through
    unchanged, the targeted row's weight becomes the capped value, and the
    recomputed total is the others' sum plus the capped value. -/
lemma updateCondInCat_weight_eq (cat : RiskCategory) (c : RiskCondition) (v : Int)
    (hc : c ∈ cat.conditions)
    (hnd : (cat.conditions.map (fun x => x.id)).Nodup) :
    ∃ l₁ l₂ : List RiskCondition,
      cat.conditions = l₁ ++ c :: l₂
      ∧ cat.conditions.filter (fun cond => cond.id != c.id) = l₁ ++ l₂
      ∧ (updateCondInCat cat.id c.id (CondField.weight v) cat).conditions
          = l₁ ++ ({ c with weight := min v (100 - sumWeights (l₁ ++ l₂)) } :: l₂)
      ∧ (updateCondInCat cat.id c.id (CondField.weight v) cat).totalWeight
          = sumWeights (l₁ ++ l₂) + min v (100 - sumWeights (l₁ ++ l₂)) := by
  obtain ⟨l₁, l₂, hsplit⟩ := List.append_of_mem hc
  refine ⟨l₁, l₂, hsplit, ?_⟩
  have hndm : ((l₁.map (fun x => x.id)) ++ (c.id :: l₂.map (fun x => x.id))).Nodup := by
    have h0 := hnd
    rw [hsplit] at h0
    simpa [List.map_append] using h0
  have hparts := List.nodup_append.mp hndm
  have hcid2 : c.id ∉ l₂.map (fun x => x.id) := (List.nodup_cons.mp hparts.2.1).1
  have hcid1 : c.id ∉ l₁.map (fun x => x.id) := fun hmem =>
    hparts.2.2 hmem (List.mem_cons_self _ _)
  have hl1 : ∀ x ∈ l₁, x.id ≠ c.id := fun x hx heq =>
    hcid1 (heq ▸ List.mem_map_of_mem _ hx)
  have hl2 : ∀ x ∈ l₂, x.id ≠ c.id := fun x hx heq =>
    hcid2 (heq ▸ List.mem_map_of_mem _ hx)
  have hfilt : cat.conditions.filter (fun cond => cond.id != c.id) = l₁ ++ l₂ := by
    rw [hsplit, List.filter_append]
    rw [List.filter_eq_self.mpr (fun x hx => by simpa using hl1 x hx)]
    rw [List.filter_cons]
    simp only [bne_self_eq_false, Bool.false_eq_true, if_false]
    rw [List.filter_eq_self.mpr (fun x hx => by simpa using hl2 x hx)]
  have hkey : updateCondInCat cat.id c.id (CondField.weight v) cat
      = { cat with
          conditions := cat.conditions.map (fun x =>
            if x.id == c.id then
              { x with weight := min v (100 - sumWeights (cat.conditions.filter
                  (fun cond => cond.id != c.id))) }
            else x),
          totalWeight := sumWeights (cat.conditions.map (fun x =>
            if x.id == c.id then
              { x with weight := min v (100 - sumWeights (cat.conditions.filter
                  (fun cond => cond.id != c.id))) }
            else x)),
          status := if sumWeights (cat.conditions.map (fun x =>
              if x.id == c.id then
                { x with weight := min v (100 - sumWeights (cat.conditions.filter
                    (fun cond => cond.id != c.id))) }
              else x)) = 100 then CatStatus.complete
            else CatStatus.incomplete } := by
    unfold updateCondInCat
    rw [if_neg (by simp)]
  have hmap : cat.conditions.map (fun x =>
      if x.id == c.id then
        { x with weight := min v (100 - sumWeights (l₁ ++ l₂)) }
      else x)
      = l₁ ++ ({ c with weight := min v (100 - sumWeights (l₁ ++ l₂)) } :: l₂) := by
    rw [hsplit, List.map_append, List.map_cons]
    congr 1
    · calc l₁.map (fun x =>
          if x.id == c.id then
            { x with weight := min v (100 - sumWeights (l₁ ++ l₂)) }
          else x)
          = l₁.map id := List.map_congr_left (fun x hx => by simp [hl1 x hx])
      _ = l₁ := List.map_id l₁
    · congr 1
      · simp
      · calc l₂.map (fun x =>
            if x.id == c.id then
              { x with weight := min v (100 - sumWeights (l₁ ++ l₂)) }
            else x)
            = l₂.map id := List.map_congr_left (fun x hx => by simp [hl2 x hx])
        _ = l₂ := List.map_id l₂
  refine ⟨hfilt, ?_, ?_⟩
  · rw [hkey]
    show cat.conditions.map (fun x =>
        if x.id == c.id then
          { x with weight := min v (100 - sumWeights (cat.conditions.filter
              (fun cond => cond.id != c.id))) }
        else x) = _
    simp only [hfilt]
    exact hmap
  · rw [hkey]
    show sumWeights (cat.conditions.map (fun x =>
        if x.id == c.id then
          { x with weight := min v (100 - sumWeights (cat.conditions.filter
              (fun cond => cond.id != c.id))) }
        else x)) = _
    simp only [hfilt]
    rw [hmap]
    simp [sumWeights, List.map_append, List.sum_append]
    ring

/-- The initial financial conditions of the local variant's `useState`. -/
def demoCond1 : RiskCondition :=
  { id := "1", field := "Loan Amount", operator := ">", value := "5000",
    weight := 40, dataType := "Number" }

def demoCond2 : RiskCondition :=
  { id := "2", field := "Outstanding Balance", operator := "=", value := "1500",
    weight := 15, dataType := "Number" }

/-- The local variant's initial `financial` category. -/
def demoFinancial : RiskCategory :=
  { id := "financial", name := "Financial & Credit",
    conditions := [demoCond1, demoCond2], totalWeight := 55,
    status := CatStatus.incomplete }

/-- The initial `identity` category. -/
def demoIdentity : RiskCategory :=
  { id := "identity", name := "Identity & Verification", conditions := [],
    totalWeight := 0, status := CatStatus.incomplete }

def demoCategories : List RiskCategory := [demoFinancial, demoIdentity]

def demoTab : String := "financial"

def demoNewId : String := "99"

/-- The financial category after `addCondition` on the financial tab. -/
def demoAdded : RiskCategory :=
  { id := "financial", name := "Financial & Credit",
    conditions := [demoCond1, demoCond2, newConditionRecord demoNewId],
    totalWeight := 55, status := CatStatus.incomplete }

/-- C1: for every category, after any state-changing operation
    (`addCondition`, `removeCondition`, `updateCondition`, or a successful
    `fetchConfigurations`), the category's `status` field equals
    `"complete"` if and only if its `totalWeight` equals 100, and is
    `"incomplete"` otherwise — an invariant preserved from any state that
    satisfies it (which the initial states do), and (re)established
    unconditionally by `removeCondition`, `updateCondition` and a successful
    fetch. -/
theorem status_complete_iff_total_100 (cats : List RiskCategory)
    (h : ∀ cat ∈ cats, statusOk cat) :
    (∀ tab newId, ∀ cat ∈ addCondition tab newId cats, statusOk cat)
    ∧ (∀ tab cid, ∀ cat ∈ removeCondition tab cid cats, statusOk cat)
    ∧ (∀ tab cid f, ∀ cat ∈ updateCondition tab cid f cats, statusOk cat)
    ∧ (∀ data, ∀ cat ∈ (fetchConfigurations cats (some data)).categories,
        statusOk cat) :=
  ⟨fun tab nid => statusOk_addCondition tab nid cats h,
   fun tab cid => statusOk_removeCondition tab cid cats h,
   fun tab cid f => statusOk_updateCondition tab cid f cats h,
   fun data => statusOk_fetchTransform data cats⟩

theorem status_complete_iff_total_100_witness : statusOk demoAdded := by
  have h := status_complete_iff_total_100 demoCategories (by decide)
  exact h.1 demoTab demoNewId demoAdded (by decide)

def demoOps : List EditOp := [EditOp.add demoTab demoNewId]

/-- C2: every sequence of `addCondition`, `removeCondition` and
    `updateCondition` steps, applied to a state whose stored `totalWeight`s
    equal the sums of the conditions' `weight` fields, yields a state where
    this still holds for every category. -/
theorem total_weight_sums_correctly (cats : List RiskCategory)
    (h : ∀ cat ∈ cats, sumOk cat) (ops : List EditOp) :
    ∀ cat ∈ applyOps ops cats, sumOk cat :=
  sumOk_applyOps ops cats h

theorem total_weight_sums_correctly_witness : sumOk demoAdded := by
  have h := total_weight_sums_correctly demoCategories (by decide) demoOps
  exact h demoAdded (by decide)

/-- C3: `updateCondition` on the `"weight"` key with requested value `v`
    sets the targeted row's weight to `min v (100 - s)` where `s` is the sum
    of the other rows' weights, and whenever `s ≤ 100` beforehand the
    recomputed `totalWeight` stays at most 100.  The active category's image
    under the per-category update is a member of the updated state. -/
theorem updateCondition_weight_capping (cats : List RiskCategory)
    (cat : RiskCategory) (c : RiskCondition) (v : Int) (hcat : cat ∈ cats)
    (hc : c ∈ cat.conditions)
    (hnd : (cat.conditions.map (fun x => x.id)).Nodup) :
    updateCondInCat cat.id c.id (CondField.weight v) cat
        ∈ updateCondition cat.id c.id (CondField.weight v) cats
    ∧ (∃ c' ∈ (updateCondInCat cat.id c.id (CondField.weight v) cat).conditions,
        c'.id = c.id
        ∧ c'.weight = min v (100 - sumWeights (cat.conditions.filter
            (fun cond => cond.id != c.id))))
    ∧ (sumWeights (cat.conditions.filter (fun cond => cond.id != c.id)) ≤ 100 →
        (updateCondInCat cat.id c.id (CondField.weight v) cat).totalWeight ≤ 100) := by
  obtain ⟨l₁, l₂, _, hfilt, hconds, htot⟩ := updateCondInCat_weight_eq cat c v hc hnd
  refine ⟨List.mem_map_of_mem _ hcat, ?_, ?_⟩
  · refine ⟨{ c with weight := min v (100 - sumWeights (l₁ ++ l₂)) }, ?_, rfl, ?_⟩
    · rw [hconds]
      exact List.mem_append_right _ (List.mem_cons_self _ _)
    · show min v (100 - sumWeights (l₁ ++ l₂)) = _
      rw [hfilt]
  · intro hs
    rw [htot]
    rw [hfilt] at hs
    have hmin := min_le_right v (100 - sumWeights (l₁ ++ l₂))
    linarith

theorem updateCondition_weight_capping_witness :
    (updateCondInCat demoFinancial.id demoCond1.id (CondField.weight 90)
      demoFinancial).totalWeight ≤ 100 := by
  have h := updateCondition_weight_capping demoCategories demoFinancial demoCond1
    90 (by decide) (by decide) (by decide)
  exact h.2.2 (by decide)

/-- The validation list of the API variant's `saveRules` is nonempty exactly
    when some category has conditions but a total different from 100. -/
lemma saveRules_invalid_iff (cats : List RiskCategory) :
    0 < ((cats.filter (fun cat => cat.conditions.length > 0)).filter
        (fun cat => cat.totalWeight ≠ 100)).length
      ↔ ∃ cat ∈ cats, cat.conditions ≠ [] ∧ cat.totalWeight ≠ 100 := by
  constructor
  · intro hlen
    obtain ⟨x, hx⟩ := List.exists_mem_of_length_pos hlen
    have hx2 := List.mem_filter.mp hx
    have hx3 := List.mem_filter.mp hx2.1
    refine ⟨x, hx3.1, ?_, ?_⟩
    · have hpos : 0 < x.conditions.length := by simpa using hx3.2
      exact List.ne_nil_of_length_pos hpos
    · simpa using hx2.2
  · intro hex
    obtain ⟨x, hx, hne, hnet⟩ := hex
    apply List.length_pos_of_mem
    refine List.mem_filter.mpr ⟨List.mem_filter.mpr ⟨hx, ?_⟩, ?_⟩
    · simpa using List.length_pos.mpr hne
    · simpa using hnet

/-- C4: the API variant's `saveRules` issues the POST exactly when every
    category with at least one condition totals 100; otherwise it shows the
    invalid-configuration toast, sends nothing, and leaves the categories
    unchanged.  Categories with no conditions never block saving. -/
theorem saveRules_validation (cats : List RiskCategory) (p : Option Bool) :
    ((saveRules cats p).posted.isSome ↔
        ∀ cat ∈ cats, cat.conditions ≠ [] → cat.totalWeight = 100)
    ∧ ((∃ cat ∈ cats, cat.conditions ≠ [] ∧ cat.totalWeight ≠ 100) →
        saveRules cats p
          = { categories := cats, toasts := [invalidConfigToast], posted := none }) := by
  unfold saveRules
  split
  · next hcond =>
    have hex := (saveRules_invalid_iff cats).mp hcond
    constructor
    · constructor
      · intro habs
        simp at habs
      · intro hall
        obtain ⟨x, hx, hne, hnet⟩ := hex
        exact absurd (hall x hx hne) hnet
    · intro _
      rfl
  · next hcond =>
    have hnoex : ¬ ∃ cat ∈ cats, cat.conditions ≠ [] ∧ cat.totalWeight ≠ 100 :=
      fun hex => hcond ((saveRules_invalid_iff cats).mpr hex)
    constructor
    · constructor
      · intro _
        intro cat hcat hne
        by_contra hnet
        exact hnoex ⟨cat, hcat, hne, hnet⟩
      · intro _
        cases p with
        | none => simp [saveConfigurations]
        | some b => cases b <;> simp [saveConfigurations]
    · intro hex
      exact absurd hex hnoex

theorem saveRules_validation_witness :
    saveRules demoCategories (some true)
      = { categories := demoCategories, toasts := [invalidConfigToast],
          posted := none } := by
  have h := saveRules_validation demoCategories (some true)
  exact h.2 ⟨demoFinancial, by decide, by decide, by decide⟩

/-- A condition carrying `riskFieldId = 0`, on which the JS falsy chain
    `condition.riskFieldId || … || 1` skips the stored id. -/
def zeroFieldCond : RiskCondition :=
  { id := "1", field := "", operator := ">", value := "", weight := 0,
    dataType := "Number", configId := none, riskFieldId := some 0 }

def zeroFieldCats : List RiskCategory :=
  [ { id := "financial", name := "Financial & Credit",
      conditions := [zeroFieldCond], totalWeight := 0,
      status := CatStatus.incomplete } ]

/-- C5, counterexample: at a condition whose `riskFieldId` is present but 0,
    the POST body does not take `RiskFieldId` from the condition's
    `riskFieldId` as the claim words it (the code falls through to the
    lookup, producing 1 instead of 0). -/
theorem saveBody_riskFieldId_claim_counterexample :
    (saveConfigurations zeroFieldCats (some true)).posted
      ≠ some (specSaveBody zeroFieldCats) := by decide

/-- C5 as amended: `saveConfigurations` issues a single POST whose body is
    the full replacement list — every condition of every category in category
    order then condition order, each carrying exactly `RiskFieldId`
    (the condition's `riskFieldId` when present and nonzero, else the value
    looked up by field name, else 1), `Operator`, `Value` and
    `WeightPercentage` — with no merging with previously fetched data. -/
theorem saveConfigurations_posts_amended_body (cats : List RiskCategory)
    (p : Option Bool) :
    (saveConfigurations cats p).posted = some (specSaveBodyAmended cats) := by
  have hfun : ∀ c : RiskCondition, condRiskFieldId c = specRiskFieldIdAmended c := by
    intro c
    unfold condRiskFieldId specRiskFieldIdAmended
    cases hfind : allFieldOptions.find? (fun f => f.name == c.field) with
    | none => simp only [hfind]
    | some f =>
      have hf0 : f.riskFieldId ≠ 0 :=
        allFieldOptions_no_zero f (List.mem_of_find?_eq_some hfind)
      simp only [hfind, if_neg hf0]
  have hbody : saveBody cats = specSaveBodyAmended cats := by
    unfold saveBody specSaveBodyAmended
    congr 1
    funext category
    exact List.map_congr_left (fun c _ => by rw [hfun c])
  cases p with
  | none => simpa [saveConfigurations] using congrArg some hbody
  | some b => cases b <;> simpa [saveConfigurations] using congrArg some hbody

/-- C6: after a successful GET, every category's conditions are replaced by
    exactly the response items whose `DisplayName` names a field of that
    category's `fieldOptions`, in response order, transformed as the spec
    describes; and blanking every item's `IsEnabled` flag leaves the result
    unchanged, so the flag has no effect. -/
theorem fetchConfigurations_replaces_conditions (data : List ApiConfigItem)
    (cats : List RiskCategory) :
    ((fetchConfigurations cats (some data)).categories.map
        (fun cat => cat.conditions)
      = cats.map (fun cat =>
          (data.filter (specKeep cat.id)).map (specTransformItem cat.id)))
    ∧ ((fetchConfigurations cats (some (data.map eraseEnabled))).categories
        = (fetchConfigurations cats (some data)).categories) :=
  ⟨fetchTransform_conditions data cats, fetchTransform_eraseEnabled data cats⟩

/-- C7: a failing GET or POST surfaces exactly one destructive error toast,
    issues exactly one request (no retry), and leaves the categories state
    untouched. -/
theorem network_failure_single_toast (cats : List RiskCategory) :
    ((fetchConfigurations cats none).categories = cats
      ∧ (fetchConfigurations cats none).toasts = [loadErrorToast]
      ∧ loadErrorToast.destructive = true
      ∧ (fetchConfigurations cats none).requests = 1)
    ∧ (∀ p : Option Bool, p ≠ some true →
        (saveConfigurations cats p).categories = cats
        ∧ (saveConfigurations cats p).toasts = [saveErrorToast]
        ∧ saveErrorToast.destructive = true
        ∧ (saveConfigurations cats p).posted = some (saveBody cats)) := by
  refine ⟨⟨rfl, rfl, rfl, rfl⟩, ?_⟩
  intro p hp
  cases p with
  | none => exact ⟨rfl, rfl, rfl, rfl⟩
  | some b =>
    cases b with
    | true => exact absurd rfl hp
    | false => exact ⟨rfl, rfl, rfl, rfl⟩

theorem network_failure_single_toast_witness :
    (saveConfigurations demoCategories none).toasts = [saveErrorToast] := by
  have h := network_failure_single_toast demoCategories
  exact (h.2 none (by decide)).2.1

/-- C8: the local-storage `saveRules` stores the JSON serialization of the
    current categories under the key `"riskCategories"`, shows the success
    toast, and leaves the in-memory categories unchanged — for every state,
    with no completeness validation. -/
theorem saveRulesLocal_unconditional (cats : List RiskCategory) :
    (saveRulesLocal cats).storedKey = "riskCategories"
    ∧ (saveRulesLocal cats).storedValue = stringifyCategories cats
    ∧ (saveRulesLocal cats).toast = rulesSavedToast
    ∧ (saveRulesLocal cats).categories = cats :=
  ⟨rfl, rfl, rfl, rfl⟩

/-- C9: `addCondition` appends exactly one fresh default row to every
    category matching the active tab, changes no other field of that
    category, leaves every other category untouched, and leaves the whole
    state untouched when no category matches the tab. -/
theorem addCondition_frame (cats : List RiskCategory) (tab newId : String) :
    (addCondition tab newId cats).length = cats.length
    ∧ (∀ i : Nat, ∀ oldcat newcat : RiskCategory,
        cats[i]? = some oldcat →
        (addCondition tab newId cats)[i]? = some newcat →
        newcat.id = oldcat.id ∧ newcat.name = oldcat.name
        ∧ newcat.totalWeight = oldcat.totalWeight
        ∧ newcat.status = oldcat.status
        ∧ (oldcat.id = tab →
            newcat.conditions = oldcat.conditions ++ [newConditionRecord newId])
        ∧ (oldcat.id ≠ tab → newcat = oldcat))
    ∧ ((∀ cat ∈ cats, cat.id ≠ tab) → addCondition tab newId cats = cats) := by
  unfold addCondition
  split
  · next hg =>
    refine ⟨List.length_map _ _, ?_, ?_⟩
    · intro i oldcat newcat hold hnew
      rw [List.getElem?_map, hold] at hnew
      have hnew' : addCondInCat tab newId oldcat = newcat := by simpa using hnew
      rw [← hnew']
      unfold addCondInCat
      by_cases hid : oldcat.id = tab
      · rw [if_pos (by simp [hid])]
        exact ⟨rfl, rfl, rfl, rfl, fun _ => rfl, fun hne => absurd hid hne⟩
      · rw [if_neg (by simp [hid])]
        exact ⟨rfl, rfl, rfl, rfl, fun h => absurd h hid, fun _ => rfl⟩
    · intro hall
      obtain ⟨x, hx, hpx⟩ := List.find?_isSome.mp hg
      exact absurd (by simpa using hpx) (hall x hx)
  · next hg =>
    have hfn : cats.find? (fun cat => cat.id == tab) = none := by
      simpa using hg
    refine ⟨rfl, ?_, fun _ => rfl⟩
    intro i oldcat newcat hold hnew
    rw [hold] at hnew
    have heq : oldcat = newcat := by simpa using hnew
    rw [List.find?_eq_none] at hfn
    have hne : oldcat.id ≠ tab := by
      have hne0 := hfn oldcat (List.getElem?_mem hold)
      simpa using hne0
    rw [← heq]
    exact ⟨rfl, rfl, rfl, rfl, fun h => absurd h hne, fun _ => rfl⟩

theorem addCondition_frame_witness :
    demoAdded.totalWeight = demoFinancial.totalWeight
    ∧ demoAdded.status = demoFinancial.status := by
  have h := addCondition_frame demoCategories demoTab demoNewId
  have h2 := h.2.1 0 demoFinancial demoAdded (by decide) (by decide)
  exact ⟨h2.2.2.1, h2.2.2.2.1⟩

/-- C10: `getAvailableFields` returns exactly the entries of the category's
    option list, in order (a sublist), whose name is unused by that
    category's conditions or equals `currentField`; an unknown `categoryId`
    yields the empty option list hence an empty result, and a `categoryId`
    matching no category degenerates to an empty used-fields list, returning
    the option list unfiltered. -/
theorem getAvailableFields_spec (opts : String → List FieldOption)
    (cats : List RiskCategory) (categoryId : String)
    (currentField : Option String) :
    (getAvailableFields cats categoryId currentField
        = getAvailableFieldsWith fieldOptions cats categoryId currentField)
    ∧ List.Sublist (getAvailableFieldsWith opts cats categoryId currentField)
        (opts categoryId)
    ∧ (∀ cat, cats.find? (fun c => c.id == categoryId) = some cat →
        ∀ f, f ∈ getAvailableFieldsWith opts cats categoryId currentField ↔
          f ∈ opts categoryId
          ∧ ((¬ ∃ c ∈ cat.conditions, c.field = f.name)
              ∨ currentField = some f.name))
    ∧ (opts categoryId = [] →
        getAvailableFieldsWith opts cats categoryId currentField = [])
    ∧ (cats.find? (fun c => c.id == categoryId) = none →
        getAvailableFieldsWith opts cats categoryId currentField
          = opts categoryId) := by
  refine ⟨rfl, List.filter_sublist _, ?_, ?_, ?_⟩
  · intro cat hfind f
    unfold getAvailableFieldsWith
    simp only [hfind]
    rw [List.mem_filter]
    refine and_congr_right (fun _ => ?_)
    simp [List.mem_map]
  · intro h
    unfold getAvailableFieldsWith
    simp [h]
  · intro hnone
    unfold getAvailableFieldsWith
    simp only [hnone]
    exact List.filter_eq_self.mpr (fun x _ => by simp)

def dpdOption : FieldOption :=
  { name := "Days Past Due (DPD)", dataType := "Number", riskFieldId := 3 }

theorem getAvailableFields_spec_witness :
    dpdOption ∈ getAvailableFieldsWith fieldOptions demoCategories demoTab none := by
  have h := getAvailableFields_spec fieldOptions demoCategories demoTab none
  exact (h.2.2.1 demoFinancial (by decide) dpdOption).mpr
    ⟨by decide, Or.inl (by decide)⟩
